import Mathlib

/-!
Verification of the booru-style tag query core of the ebooklibrary backend.

Shallow embedding of:
  * `backend/app/utils/tag_normalization.py`
      (`normalize_tag_name`, `denormalize_tag_name`, `DISPLAY_EXCEPTIONS`)
  * `backend/app/services/tag_parser.py`
      (`TagTerm`, `TagQuery`, `TagExpressionParser.parse`,
       `_parse_and_expression`, `resolve_alias`, `_load_aliases`,
       `build_filter`, `_build_filter_from_terms`, `_build_tag_filter`)

Python strings are modelled as Lean `String` / `List Char`; `str.lower`
is modelled on the ASCII range (all inputs the claims exercise are
ASCII, and every non-ASCII character is removed by the normalizer's
character filter in any case).  The SQLAlchemy session is modelled by
explicit lists of persisted rows (tags, aliases, books), and a query is
modelled by the list of rows it returns.
-/

namespace EbookLib

/-! ## Python string primitives -/

/-- Python `\s` (ASCII range): the whitespace characters recognised by
`str.split()`, `str.strip()` and the `re` module. -/
def isPyWs (c : Char) : Bool :=
  c = ' ' || c = '\t' || c = '\n' || c = '\x0b' || c = '\x0c' || c = '\r'

/-- `str.strip()` on a character list: drop whitespace from both ends. -/
def pyStripList (l : List Char) : List Char :=
  ((l.dropWhile isPyWs).reverse.dropWhile isPyWs).reverse

/-- `str.strip()`. -/
def pyStrip (s : String) : String := ⟨pyStripList s.data⟩

/-- Helper for `pyWords`: `cur` is the (reversed) word being read. -/
def pyWordsAux (cur : List Char) : List Char → List (List Char)
  | [] => if cur = [] then [] else [cur.reverse]
  | c :: rest =>
    if isPyWs c then
      if cur = [] then pyWordsAux [] rest
      else cur.reverse :: pyWordsAux [] rest
    else pyWordsAux (c :: cur) rest

/-- `str.split()` with no separator: split on whitespace runs, discarding
empty pieces. -/
def pyWords (l : List Char) : List (List Char) := pyWordsAux [] l

/-- `s.replace(pat, rep, 1)` for a nonempty `pat`: replace the leftmost
occurrence, if any. -/
def replaceFirstAux (pat rep : List Char) : List Char → List Char
  | [] => []
  | c :: rest =>
    if pat.isPrefixOf (c :: rest) then rep ++ (c :: rest).drop pat.length
    else c :: replaceFirstAux pat rep rest

/-- Recursion core of `pyReplaceAll`.  The `fuel` argument only makes
the recursion structural: every step consumes at least one character of
the list, so with `fuel = l.length` (as `pyReplaceAll` passes) the
`fuel = 0` fallback is never reached on a nonempty list. -/
def replaceAllAux (pat rep : List Char) : Nat → List Char → List Char
  | _, [] => []
  | 0, l => l
  | fuel + 1, c :: rest =>
    if pat ≠ [] && pat.isPrefixOf (c :: rest) then
      rep ++ replaceAllAux pat rep fuel ((c :: rest).drop pat.length)
    else c :: replaceAllAux pat rep fuel rest

/-- `s.replace(pat, rep)` for a nonempty `pat`: replace every
non-overlapping occurrence left to right. -/
def pyReplaceAll (pat rep l : List Char) : List Char :=
  replaceAllAux pat rep l.length l

/-! ## `normalize_tag_name` (tag_normalization.py lines 33-86) -/

/-- The character class `[a-z0-9_]` kept by the normalizer's
`re.sub(r'[^a-z0-9_]', '', ·)` step. -/
def isAllowed (c : Char) : Bool :=
  ('a' ≤ c && c ≤ 'z') || ('0' ≤ c && c ≤ '9') || c = '_'

/-- `re.sub(r'_+', '_', ·)`: collapse each maximal run of underscores to a
single underscore (implemented by dropping an underscore that is
immediately followed by another). -/
def collapseUnderscores : List Char → List Char
  | [] => []
  | [c] => [c]
  | a :: b :: rest =>
    if a = '_' && b = '_' then collapseUnderscores (b :: rest)
    else a :: collapseUnderscores (b :: rest)

/-- `str.strip('_')`. -/
def stripUnderscores (l : List Char) : List Char :=
  ((l.dropWhile (· = '_')).reverse.dropWhile (· = '_')).reverse

/-- `normalize_tag_name` from `tag_normalization.py`:
lowercase, replace `/`, `-` and space with `_`, drop everything outside
`[a-z0-9_]`, collapse underscore runs, strip edge underscores.
An empty (falsy) input returns `""` immediately. -/
def normalize_tag_name (raw_name : String) : String :=
  if raw_name = "" then "" else
  let l := raw_name.data.map Char.toLower
  let l := l.map (fun c => if c = '/' then '_' else c)
  let l := l.map (fun c => if c = '-' then '_' else c)
  let l := l.map (fun c => if c = ' ' then '_' else c)
  let l := l.filter isAllowed
  let l := collapseUnderscores l
  let l := stripUnderscores l
  ⟨l⟩

example : normalize_tag_name "Science Fiction" = "science_fiction" := by decide
example : normalize_tag_name "Action/Adventure" = "action_adventure" := by decide
example : normalize_tag_name "sci-fi" = "sci_fi" := by decide
example : normalize_tag_name "Mystery & Thriller" = "mystery_thriller" := by decide
example : normalize_tag_name "space  opera" = "space_opera" := by decide
example : normalize_tag_name "LGBTQ+" = "lgbtq" := by decide

/-! ## `denormalize_tag_name` (tag_normalization.py lines 89-131) -/

/-- An insertion-ordered string-keyed dictionary (Python `dict`):
lookup returns the value of the first (unique) matching key. -/
def dictGet (d : List (String × String)) (k : String) : Option String :=
  (d.find? (fun p => p.1 = k)).map (·.2)

/-- Python `dict.__setitem__`: overwrite the value in place if the key
exists, otherwise append. -/
def dictSet (d : List (String × String)) (k v : String) : List (String × String) :=
  if d.any (fun p => p.1 = k) then d.map (fun p => if p.1 = k then (k, v) else p)
  else d ++ [(k, v)]

/-- `DISPLAY_EXCEPTIONS` from `tag_normalization.py`. -/
def DISPLAY_EXCEPTIONS : List (String × String) :=
  [("lgbtq", "LGBTQ+"), ("ai", "AI"), ("ml", "ML"), ("scifi", "Sci-Fi"),
   ("ya", "YA"), ("isbn", "ISBN"), ("ui", "UI"), ("ux", "UX"),
   ("api", "API"), ("pdf", "PDF"), ("epub", "EPUB"), ("mobi", "MOBI"),
   ("html", "HTML"), ("css", "CSS"), ("javascript", "JavaScript"),
   ("python", "Python")]

/-- Python `str.capitalize()`: first character uppercased, the rest
lowercased (ASCII model). -/
def pyCapitalize (s : String) : String :=
  match s.data with
  | [] => ""
  | c :: rest => ⟨c.toUpper :: rest.map Char.toLower⟩

/-- Python truthiness of an optional string: `None` and `""` are falsy. -/
def truthyStr : Option String → Bool
  | some s => s ≠ ""
  | none => false

/-- Helper for `splitOnChar`: `cur` is the (reversed) piece being read. -/
def splitOnCharAux (sep : Char) (cur : List Char) : List Char → List (List Char)
  | [] => [cur.reverse]
  | c :: rest =>
    if c = sep then cur.reverse :: splitOnCharAux sep [] rest
    else splitOnCharAux sep (c :: cur) rest

/-- Python `str.split(sep)` with a one-character separator: keeps empty
pieces (`"a__b".split("_") == ["a", "", "b"]`). -/
def splitOnChar (sep : Char) (l : List Char) : List (List Char) :=
  splitOnCharAux sep [] l

/-- Python `" ".join(words)`. -/
def joinWithSpace : List (List Char) → List Char
  | [] => []
  | [w] => w
  | w :: ws => w ++ ' ' :: joinWithSpace ws

/-- `denormalize_tag_name` from `tag_normalization.py`: if
`custom_display` is truthy return it; else whole-string exception lookup;
else split on `_`, capitalize each word (with per-word exception lookup)
and join with spaces. -/
def denormalize_tag_name (normalized_name : String)
    (custom_display : Option String := none) : String :=
  if truthyStr custom_display then custom_display.getD "" else
  match dictGet DISPLAY_EXCEPTIONS normalized_name with
  | some d => d
  | none =>
    let words := (splitOnChar '_' normalized_name.data).map (⟨·⟩)
    let display_words := words.map (fun w =>
      match dictGet DISPLAY_EXCEPTIONS w with
      | some d => d
      | none => pyCapitalize w)
    ⟨joinWithSpace (display_words.map (·.data))⟩

example : denormalize_tag_name "science_fiction" = "Science Fiction" := by decide
example : denormalize_tag_name "lgbtq" = "LGBTQ+" := by decide
example : denormalize_tag_name "action_adventure" = "Action Adventure" := by decide
example : denormalize_tag_name "scifi" (some "Sci-Fi") = "Sci-Fi" := by decide

/-! ## Data model (models.py): persisted rows, in-memory values -/

/-- A row of the `tags` table (the columns the query core reads). -/
structure TagRow where
  id : Nat
  name : String
  type : String
deriving Repr, DecidableEq

/-- A row of the `tag_aliases` table (`alias` is a Lean keyword, hence
the guillemets). -/
structure TagAliasRow where
  «alias» : String
  canonical_tag_id : Nat
deriving Repr, DecidableEq

/-- A book together with the tags attached through the `book_tags`
association (the only parts of `Book` the filter reads). -/
structure BookRow where
  id : Nat
  tags : List TagRow
deriving Repr, DecidableEq

/-! ## TagTerm / TagQuery (tag_parser.py lines 19-31) -/

/-- `TagTerm` dataclass. `tag_type = none` models Python `None`. -/
structure TagTerm where
  tag_name : String
  tag_type : Option String := none
  exclude : Bool := false
deriving Repr, DecidableEq

/-- An element of `TagQuery.terms`: either a `TagTerm` or a nested
`TagQuery` (its fields inlined, since Lean nested inductives cannot
reuse the `TagQuery` structure directly). -/
inductive TQElem where
  | term (t : TagTerm)
  | query (terms : List TQElem) (operator : String)
deriving Repr

/-- `TagQuery` dataclass. -/
structure TagQuery where
  terms : List TQElem
  operator : String := "AND"
deriving Repr

/-! ## Alias resolution (tag_parser.py lines 41-69) -/

/-- `TagExpressionParser._load_aliases`: for each alias row, look up its
canonical tag by id; when found, map the normalized alias to the
canonical tag's current name.  The session is modelled by the lists of
persisted rows. -/
def load_aliases (aliasRows : List TagAliasRow) (tagRows : List TagRow) :
    List (String × String) :=
  aliasRows.foldl (fun aliases ar =>
    match tagRows.find? (fun t => t.id = ar.canonical_tag_id) with
    | some canonical_tag => dictSet aliases (normalize_tag_name ar.alias) canonical_tag.name
    | none => aliases) []

/-- `TagExpressionParser.resolve_alias`: normalize, then
`aliases.get(normalized, normalized)`. -/
def resolve_alias (aliasRows : List TagAliasRow) (tagRows : List TagRow)
    (tag_name : String) : String :=
  let normalized := normalize_tag_name tag_name
  (dictGet (load_aliases aliasRows tagRows) normalized).getD normalized

/-! ## Quote extraction (tag_parser.py lines 91-99)

`re.finditer(r'"([^"]+)"', s)`: scanning left to right, a match is a
double quote, a nonempty run of non-quote characters, and a closing
double quote; scanning resumes after the match. -/

/-- Recursion core of `findQuoted` (fuel only makes the recursion
structural; each step consumes at least one character). -/
def findQuotedAux : Nat → List Char → List (List Char)
  | _, [] => []
  | 0, _ => []
  | fuel + 1, c :: rest =>
    if c = '"' then
      match rest.dropWhile (· != '"') with
      | _ :: after =>
        let content := rest.takeWhile (· != '"')
        if content = [] then findQuotedAux fuel rest
        else content :: findQuotedAux fuel after
      | [] => []
    else findQuotedAux fuel rest

/-- Contents of the quoted matches, in order.  At an opening quote the
content `[^"]+` is the maximal nonempty run of non-quote characters; if
it is empty (`""`) no match starts here and the scan advances by one
character; if there is no closing quote there is no further match. -/
def findQuoted (l : List Char) : List (List Char) := findQuotedAux l.length l

/-- The placeholder `__QUOTED_{i}__`. -/
def placeholder (i : Nat) : List Char := s!"__QUOTED_{i}__".data

/-- The substitution loop of `parse`: for each quoted match `"content"`,
replace its first occurrence in the query string with `__QUOTED_{i}__`. -/
def substQuoted (i : Nat) (l : List Char) : List (List Char) → List Char
  | [] => l
  | content :: cs =>
      substQuoted (i + 1)
        (replaceFirstAux ('"' :: (content ++ ['"'])) (placeholder i) l) cs

/-! ## OR splitting (tag_parser.py line 102)

`re.split(r'\s+OR\s+', s, flags=re.IGNORECASE)`. -/

/-- After the leading whitespace run: expect `O`/`o`, `R`/`r`, then at
least one whitespace character; the trailing `\s+` is greedy, so the
remainder starts after the maximal whitespace run. -/
def orSepTail (l : List Char) : Option (List Char) :=
  match l with
  | o :: r :: w :: rest =>
    if (o = 'O' || o = 'o') && (r = 'R' || r = 'r') && isPyWs w then
      some ((w :: rest).dropWhile isPyWs)
    else none
  | _ => none

/-- Try to match `\s+OR\s+` at the start of `l` (greedy whitespace runs;
`OR` case-insensitive); on success return the remainder after the
match. -/
def matchORSep (l : List Char) : Option (List Char) :=
  match l with
  | [] => none
  | c :: rest =>
    if isPyWs c then orSepTail ((c :: rest).dropWhile isPyWs) else none

/-- Helper for `splitOR`: `cur` is the (reversed) current piece (fuel
only makes the recursion structural; a separator match consumes at least
four characters, any other step one). -/
def splitORAux : Nat → List Char → List Char → List (List Char)
  | _, cur, [] => [cur.reverse]
  | 0, cur, l => [cur.reverse ++ l]
  | fuel + 1, cur, c :: rest =>
    match matchORSep (c :: rest) with
    | some rest2 => cur.reverse :: splitORAux fuel [] rest2
    | none => splitORAux fuel (c :: cur) rest

/-- `re.split(r'\s+OR\s+', ·, flags=re.IGNORECASE)`. -/
def splitOR (l : List Char) : List (List Char) := splitORAux l.length [] l

/-! ## Token parsing (tag_parser.py lines 118-154)

Results are wrapped in `Option`: `none` models a Python exception.  The
only possibly-failing operations are the `parts[0]` / `parts[1]` list
indexings after `token.split(':', 1)`, modelled with `List.get?`. -/

/-- The placeholder-restoration loop: for each recorded quoted value,
replace every occurrence of its placeholder in the token. -/
def restoreQuotedAux (i : Nat) (tok : List Char) : List (List Char) → List Char
  | [] => tok
  | qv :: qvs => restoreQuotedAux (i + 1) (pyReplaceAll (placeholder i) qv tok) qvs

/-- `token.startswith('-')`. -/
def startsWithDash : List Char → Bool
  | '-' :: _ => true
  | _ => false

/-- `token.split(':', 1)`: at most one split, at the first colon. -/
def pySplitColon1 (l : List Char) : List (List Char) :=
  if l.contains ':' then [l.takeWhile (· != ':'), (l.dropWhile (· != ':')).tail]
  else [l]

/-- The body of the token loop of `_parse_and_expression`: restore
placeholders, strip a leading `-`, split off a `type:` prefix at the
first colon, then normalize and resolve aliases. -/
def parse_token (aliasRows : List TagAliasRow) (tagRows : List TagRow)
    (quoted_values : List (List Char)) (tok0 : List Char) : Option TagTerm :=
  let tok1 := restoreQuotedAux 0 tok0 quoted_values
  let exclude := startsWithDash tok1
  let tok2 := if exclude then tok1.tail else tok1
  if tok2.contains ':' then
    let parts := pySplitColon1 tok2
    match parts.get? 0, parts.get? 1 with
    | some ty, some rest =>
      some { tag_name := resolve_alias aliasRows tagRows ⟨rest⟩
             tag_type := some ⟨ty⟩
             exclude := exclude }
    | _, _ => none
  else
    some { tag_name := resolve_alias aliasRows tagRows ⟨tok2⟩
           tag_type := none
           exclude := exclude }

/-- The token loop: empty tokens are skipped (`if not token: continue`),
every other token contributes one `TagTerm`. -/
def parse_tokens (aliasRows : List TagAliasRow) (tagRows : List TagRow)
    (quoted_values : List (List Char)) : List (List Char) → Option (List TagTerm)
  | [] => some []
  | tok :: rest =>
    if tok = [] then parse_tokens aliasRows tagRows quoted_values rest
    else do
      let t ← parse_token aliasRows tagRows quoted_values tok
      let ts ← parse_tokens aliasRows tagRows quoted_values rest
      pure (t :: ts)

/-- `TagExpressionParser._parse_and_expression`: split on whitespace and
parse each token; the result is always an `"AND"` query of plain terms. -/
def parse_and_expression (aliasRows : List TagAliasRow) (tagRows : List TagRow)
    (quoted_values : List (List Char)) (expr : List Char) : Option TagQuery := do
  let terms ← parse_tokens aliasRows tagRows quoted_values (pyWords expr)
  pure ⟨terms.map TQElem.term, "AND"⟩

/-- The OR-branch loop of `parse`: each OR part is parsed as an AND
expression; a singleton result is unwrapped to its single element,
anything else is kept as a nested query. -/
def parse_or_parts (aliasRows : List TagAliasRow) (tagRows : List TagRow)
    (quoted_values : List (List Char)) : List (List Char) → Option (List TQElem)
  | [] => some []
  | part :: rest => do
    let sub ← parse_and_expression aliasRows tagRows quoted_values part
    let e := match sub.terms with
      | [e] => e
      | _ => TQElem.query sub.terms sub.operator
    let es ← parse_or_parts aliasRows tagRows quoted_values rest
    pure (e :: es)

/-- `TagExpressionParser.parse` (tag_parser.py lines 71-116). -/
def parse (aliasRows : List TagAliasRow) (tagRows : List TagRow)
    (query_string : String) : Option TagQuery :=
  if query_string = "" || pyStrip query_string = "" then some ⟨[], "AND"⟩
  else
    let l := query_string.data
    let quoted_values := findQuoted l
    let l2 := substQuoted 0 l quoted_values
    let or_parts := splitOR l2
    if or_parts.length > 1 then do
      let terms ← parse_or_parts aliasRows tagRows quoted_values or_parts
      pure ⟨terms, "OR"⟩
    else
      parse_and_expression aliasRows tagRows quoted_values l2

example :
    parse [] [] "fantasy -romance" =
      some ⟨[.term ⟨"fantasy", none, false⟩, .term ⟨"romance", none, true⟩], "AND"⟩ := rfl

example :
    parse [] [] "genre:fantasy OR genre:scifi" =
      some ⟨[.term ⟨"fantasy", some "genre", false⟩,
             .term ⟨"scifi", some "genre", false⟩], "OR"⟩ := rfl

/-! ## Filter compilation (tag_parser.py lines 156-237)

A SQLAlchemy filter is modelled as a `BookRow → Bool` predicate, a book
query as the list of rows it returns, and `query.filter(f)` as
`List.filter f`. -/

/-- The `tag_conditions` list of `_build_tag_filter`: the name equality,
plus the type equality when `term.tag_type` is truthy (Python
`if term.tag_type:` — `None` and `""` add no condition). -/
def tag_conditions (term : TagTerm) : List (TagRow → Bool) :=
  [fun t => t.name == term.tag_name] ++
    (if truthyStr term.tag_type then [fun t => some t.type == term.tag_type] else [])

/-- `TagExpressionParser._build_tag_filter`: the subquery selects the ids
of books joined with a tag satisfying all conditions; the filter is id
membership in the subquery, negated (`notin_`) when `term.exclude`. -/
def build_tag_filter (books : List BookRow) (term : TagTerm) : BookRow → Bool :=
  let conds := tag_conditions term
  let tag_subquery : List Nat :=
    books.flatMap (fun b =>
      (b.tags.filter (fun t => conds.all (fun c => c t))).map (fun _ => b.id))
  if term.exclude then fun b => !(tag_subquery.contains b.id)
  else fun b => tag_subquery.contains b.id

/-- The filter-collection loop shared by `build_filter` and
`_build_filter_from_terms`: a `TagTerm` contributes its tag filter; a
nested `TagQuery` contributes its combined filter unless it has no
filters (`_build_filter_from_terms` returning `None` is skipped). -/
def filters_from_terms (books : List BookRow) : List TQElem → List (BookRow → Bool)
  | [] => []
  | .term t :: rest => build_tag_filter books t :: filters_from_terms books rest
  | .query ts op :: rest =>
    let fs := filters_from_terms books ts
    (if fs.isEmpty then [] else
      [fun b => if op == "OR" then fs.any (fun f => f b) else fs.all (fun f => f b)]) ++
      filters_from_terms books rest

/-- `TagExpressionParser.build_filter`: the base query is returned
unchanged when the parsed query has no terms or no filters; otherwise
the filters are combined with `or_` / `and_` per the operator. -/
def build_filter (books : List BookRow) (query : TagQuery)
    (book_query : List BookRow) : List BookRow :=
  if query.terms.isEmpty then book_query
  else
    let fs := filters_from_terms books query.terms
    if fs.isEmpty then book_query
    else
      book_query.filter (fun b =>
        if query.operator == "OR" then fs.any (fun f => f b)
        else fs.all (fun f => f b))

/-- `apply_tag_filter` convenience function (tag_parser.py lines
255-269): parse, then build the filter over the base query. -/
def apply_tag_filter (aliasRows : List TagAliasRow) (tagRows : List TagRow)
    (books : List BookRow) (book_query : List BookRow) (expression : String) :
    Option (List BookRow) :=
  (parse aliasRows tagRows expression).map
    (fun q => build_filter books q book_query)

section FilterExamples

/-- Book A of the spec's end-to-end scenario. -/
def bookA : BookRow := ⟨1, [⟨10, "fantasy", "genre"⟩, ⟨11, "dark", "tone"⟩]⟩

/-- Book B of the spec's end-to-end scenario. -/
def bookB : BookRow := ⟨2, [⟨12, "scifi", "genre"⟩]⟩

example :
    apply_tag_filter [] [] [bookA, bookB] [bookA, bookB]
      "genre:fantasy -tone:grimdark" = some [bookA] := by
  have hp : parse [] [] "genre:fantasy -tone:grimdark" =
      some ⟨[.term ⟨"fantasy", some "genre", false⟩,
             .term ⟨"grimdark", some "tone", true⟩], "AND"⟩ := rfl
  simp only [apply_tag_filter, hp, Option.map_some']
  simp only [build_filter, filters_from_terms]
  decide

example :
    apply_tag_filter [] [] [bookA, bookB] [bookA, bookB]
      "genre:fantasy OR genre:scifi" = some [bookA, bookB] := by
  have hp : parse [] [] "genre:fantasy OR genre:scifi" =
      some ⟨[.term ⟨"fantasy", some "genre", false⟩,
             .term ⟨"scifi", some "genre", false⟩], "OR"⟩ := rfl
  simp only [apply_tag_filter, hp, Option.map_some']
  simp only [build_filter, filters_from_terms]
  decide

end FilterExamples

/-- Is this element a plain `TagTerm`? -/
def isTermElem : TQElem → Bool
  | .term _ => true
  | .query _ _ => false

/-- Allowed shape of a top-level element of an OR-query: a plain term,
or a nested AND-query all of whose elements are plain terms. -/
def orElemOK : TQElem → Bool
  | .term _ => true
  | .query ts op => op == "AND" && ts.all isTermElem

/-- The depth-≤-2 structural invariant of C10. -/
def shallowOK (q : TagQuery) : Bool :=
  (q.operator == "AND" || q.operator == "OR") &&
    (if q.operator == "AND" then q.terms.all isTermElem
     else q.terms.all orElemOK)

/-- No two consecutive underscores. -/
def NoDouble (l : List Char) : Prop :=
  List.Chain' (fun a b => ¬(a = '_' ∧ b = '_')) l


/-! ## Claim theorems -/

/-- C4: for every tag term and every book, the filter compiled with
`exclude = true` evaluates to the boolean negation of the filter
compiled for the same term with `exclude = false`. -/
theorem exclude_filter_complement (books : List BookRow) (name : String)
    (ty : Option String) (b : BookRow) :
    build_tag_filter books ⟨name, ty, true⟩ b
      = !build_tag_filter books ⟨name, ty, false⟩ b := rfl

/-- C3: an empty or whitespace-only query string parses to the empty
AND-query, and building the filter for the empty AND-query returns the
base book query unchanged. -/
theorem empty_query_identity (aliasRows : List TagAliasRow)
    (tagRows : List TagRow) (s : String) (hws : s.data.all isPyWs = true)
    (books book_query : List BookRow) :
    parse aliasRows tagRows s = some ⟨[], "AND"⟩ ∧
    build_filter books ⟨[], "AND"⟩ book_query = book_query := by
  constructor
  · have hcond : (decide (s = "") || decide (pyStrip s = "")) = true := by
      by_cases hs : s = ""
      · simp [hs]
      · have hdrop : s.data.dropWhile isPyWs = [] := by
          rw [List.dropWhile_eq_nil_iff]
          intro x hx
          exact List.all_eq_true.mp hws x hx
        have hstrip : pyStrip s = "" := by
          show String.mk (pyStripList s.data) = ""
          unfold pyStripList
          rw [hdrop]
          rfl
        simp [hstrip]
    simp [parse, hcond]
  · rfl

/-- Witness for C3 at the concrete whitespace-only input `" "`. -/
theorem empty_query_identity_witness :
    parse [] [] " " = some ⟨[], "AND"⟩ ∧
    build_filter [] ⟨[], "AND"⟩ [⟨1, []⟩] = [⟨1, []⟩] :=
  empty_query_identity [] [] " " (by decide) [] [⟨1, []⟩]

/-- C5: `resolve_alias` returns the canonical name recorded in the
loaded alias map for the normalized input when present, and the
normalized input itself otherwise; concretely, an alias normalizing to
`sci_fi` for the tag `science_fiction` resolves `"Sci-Fi"` to
`"science_fiction"`, and `"unknown_term"` passes through unchanged. -/
theorem resolve_alias_spec (aliasRows : List TagAliasRow)
    (tagRows : List TagRow) (s : String) :
    (∀ c, dictGet (load_aliases aliasRows tagRows) (normalize_tag_name s) = some c →
      resolve_alias aliasRows tagRows s = c) ∧
    (dictGet (load_aliases aliasRows tagRows) (normalize_tag_name s) = none →
      resolve_alias aliasRows tagRows s = normalize_tag_name s) ∧
    resolve_alias [⟨"sci-fi", 7⟩] [⟨7, "science_fiction", "genre"⟩] "Sci-Fi"
      = "science_fiction" ∧
    resolve_alias [] [] "unknown_term" = "unknown_term" := by
  refine ⟨fun c h => ?_, fun h => ?_, rfl, rfl⟩ <;> simp [resolve_alias, h]

/-- Witness for C5 discharging both lookup hypotheses at concrete
inputs. -/
theorem resolve_alias_spec_witness :
    resolve_alias [⟨"sci-fi", 7⟩] [⟨7, "science_fiction", "genre"⟩] "Sci-Fi"
      = "science_fiction" ∧
    resolve_alias [] [] "unknown_term" = "unknown_term" :=
  ⟨(resolve_alias_spec [⟨"sci-fi", 7⟩] [⟨7, "science_fiction", "genre"⟩]
      "Sci-Fi").1 "science_fiction" (by decide),
   (resolve_alias_spec [] [] "unknown_term").2.1 (by decide)⟩

/-- C9 counterexample: an empty `custom_display` string is given but is
falsy in Python, so `denormalize_tag_name` ignores it and falls through
to the exceptions table instead of returning it verbatim. -/
theorem custom_display_empty_cex :
    denormalize_tag_name "ai" (some "") = "AI" ∧
    denormalize_tag_name "ai" (some "") ≠ "" := by
  refine ⟨rfl, ?_⟩
  intro h
  rw [show denormalize_tag_name "ai" (some "") = "AI" from rfl] at h
  exact absurd h (by decide)

/-- C9 amended: a nonempty `custom_display` is returned verbatim. -/
theorem custom_display_verbatim (n cd : String) (h : cd ≠ "") :
    denormalize_tag_name n (some cd) = cd := by
  simp [denormalize_tag_name, truthyStr, h]

/-- Witness for the amended C9. -/
theorem custom_display_verbatim_witness :
    denormalize_tag_name "scifi" (some "Sci-Fi") = "Sci-Fi" :=
  custom_display_verbatim "scifi" "Sci-Fi" (by decide)

/-- C1 counterexample: the token `"-"` is not dropped; it produces a
`TagTerm` with empty name and `exclude = true` (the emptiness check runs
before the `-` is stripped), so the resulting query is not the empty
one the claim predicts. -/
theorem dash_only_token_cex :
    parse [] [] "-" = some ⟨[.term ⟨"", none, true⟩], "AND"⟩ ∧
    parse [] [] "-" ≠ some ⟨[], "AND"⟩ := by
  refine ⟨rfl, ?_⟩
  intro h
  have h2 : (some (⟨[.term ⟨"", none, true⟩], "AND"⟩ : TagQuery))
      = some (⟨[], "AND"⟩ : TagQuery) :=
    (show parse [] [] "-" = some ⟨[.term ⟨"", none, true⟩], "AND"⟩ from rfl).symm.trans h
  exact absurd h2 (by simp)

/-- C1 amended: for any alias table, a token that is only `-` is not
dropped: it yields one `TagTerm` whose name is the alias-resolution of
the empty string, with no type and `exclude = true`. -/
theorem dash_only_token_amended (aliasRows : List TagAliasRow)
    (tagRows : List TagRow) :
    parse aliasRows tagRows "-" =
      some ⟨[.term ⟨resolve_alias aliasRows tagRows "", none, true⟩], "AND"⟩ := rfl

/-- C2 counterexample: quoting does not protect a leading `-` or an
inner `:` — the quoted token `"-a:b"` comes back with `exclude = true`
and the type prefix `a` split off, not as a single protected name. -/
theorem quoted_reserved_cex :
    parse [] [] "\"-a:b\"" = some ⟨[.term ⟨"b", some "a", true⟩], "AND"⟩ ∧
    parse [] [] "\"-a:b\"" ≠ some ⟨[.term ⟨"a_b", none, false⟩], "AND"⟩ := by
  refine ⟨rfl, ?_⟩
  intro h
  have h2 : (some (⟨[.term ⟨"b", some "a", true⟩], "AND"⟩ : TagQuery))
      = some (⟨[.term ⟨"a_b", none, false⟩], "AND"⟩ : TagQuery) :=
    (show parse [] [] "\"-a:b\"" = some ⟨[.term ⟨"b", some "a", true⟩], "AND"⟩
      from rfl).symm.trans h
  exact absurd h2 (by simp)

/-- C2 amended: quoting protects whitespace (a quoted `b c` stays one
token and reaches normalization whole), but after the placeholder is
restored a leading `-` still sets `exclude` and a `:` is still split off
as a type prefix. -/
theorem quoted_protects_spaces_amended (aliasRows : List TagAliasRow)
    (tagRows : List TagRow) :
    parse aliasRows tagRows "\"b c\"" =
      some ⟨[.term ⟨resolve_alias aliasRows tagRows "b c", none, false⟩], "AND"⟩ ∧
    parse aliasRows tagRows "\"-a:b\"" =
      some ⟨[.term ⟨resolve_alias aliasRows tagRows "b", some "a", true⟩], "AND"⟩ :=
  ⟨rfl, rfl⟩

/-- C7: the quoted-author OR query parses to an OR-query of exactly two
plain author terms with normalized names. -/
theorem parse_quoted_authors_or :
    parse [] [] "author:\"Gene Wolfe\" OR author:\"Ursula Le Guin\"" =
      some ⟨[.term ⟨"gene_wolfe", some "author", false⟩,
             .term ⟨"ursula_le_guin", some "author", false⟩], "OR"⟩ := rfl

/-! ## Totality (C8) and the structural invariant (C10) -/

theorem parse_token_isSome (aliasRows : List TagAliasRow) (tagRows : List TagRow)
    (qv : List (List Char)) (tok : List Char) :
    (parse_token aliasRows tagRows qv tok).isSome = true := by
  unfold parse_token
  dsimp only
  split <;> split <;> simp_all [pySplitColon1]

theorem parse_tokens_isSome (aliasRows : List TagAliasRow) (tagRows : List TagRow)
    (qv : List (List Char)) (toks : List (List Char)) :
    (parse_tokens aliasRows tagRows qv toks).isSome = true := by
  induction toks with
  | nil => rfl
  | cons tok rest ih =>
    simp only [parse_tokens]
    split
    · exact ih
    · have h1 := parse_token_isSome aliasRows tagRows qv tok
      cases hpt : parse_token aliasRows tagRows qv tok with
      | none => rw [hpt] at h1; simp at h1
      | some tm =>
        cases hts : parse_tokens aliasRows tagRows qv rest with
        | none => rw [hts] at ih; simp at ih
        | some ts => simp [hpt, hts]

theorem parse_and_expression_isSome (aliasRows : List TagAliasRow)
    (tagRows : List TagRow) (qv : List (List Char)) (expr : List Char) :
    (parse_and_expression aliasRows tagRows qv expr).isSome = true := by
  unfold parse_and_expression
  have h1 := parse_tokens_isSome aliasRows tagRows qv (pyWords expr)
  cases hts : parse_tokens aliasRows tagRows qv (pyWords expr) with
  | none => rw [hts] at h1; simp at h1
  | some ts => simp [hts]

theorem parse_or_parts_isSome (aliasRows : List TagAliasRow)
    (tagRows : List TagRow) (qv : List (List Char)) (parts : List (List Char)) :
    (parse_or_parts aliasRows tagRows qv parts).isSome = true := by
  induction parts with
  | nil => rfl
  | cons part rest ih =>
    simp only [parse_or_parts]
    have h1 := parse_and_expression_isSome aliasRows tagRows qv part
    cases hae : parse_and_expression aliasRows tagRows qv part with
    | none => rw [hae] at h1; simp at h1
    | some sub =>
      cases hrs : parse_or_parts aliasRows tagRows qv rest with
      | none => rw [hrs] at ih; simp at ih
      | some es => simp [hae, hrs]

/-- C8: `parse` is total — for every alias table and every query string
(including unbalanced quotes, stray colons, leading/trailing operators),
it returns a `TagQuery` and never fails. -/
theorem parse_total (aliasRows : List TagAliasRow) (tagRows : List TagRow)
    (s : String) : (parse aliasRows tagRows s).isSome = true := by
  unfold parse
  dsimp only
  split
  · rfl
  · split
    · have h1 := parse_or_parts_isSome aliasRows tagRows
        (findQuoted s.data) (splitOR (substQuoted 0 s.data (findQuoted s.data)))
      cases hop : parse_or_parts aliasRows tagRows (findQuoted s.data)
          (splitOR (substQuoted 0 s.data (findQuoted s.data))) with
      | none => rw [hop] at h1; simp at h1
      | some es => simp [hop]
    · exact parse_and_expression_isSome aliasRows tagRows _ _

theorem parse_and_expression_shape (aliasRows : List TagAliasRow)
    (tagRows : List TagRow) (qv : List (List Char)) (expr : List Char)
    (q : TagQuery) (h : parse_and_expression aliasRows tagRows qv expr = some q) :
    q.operator = "AND" ∧ ∀ x ∈ q.terms, isTermElem x = true := by
  unfold parse_and_expression at h
  cases hts : parse_tokens aliasRows tagRows qv (pyWords expr) with
  | none => rw [hts] at h; simp at h
  | some ts =>
    rw [hts] at h
    simp only [Option.pure_def, Option.bind_eq_bind, Option.some_bind, Option.some.injEq] at h
    subst h
    refine ⟨rfl, ?_⟩
    intro x hx
    rw [List.mem_map] at hx
    obtain ⟨t, _, rfl⟩ := hx
    rfl

theorem parse_or_parts_shape (aliasRows : List TagAliasRow)
    (tagRows : List TagRow) (qv : List (List Char)) (parts : List (List Char))
    (es : List TQElem) (h : parse_or_parts aliasRows tagRows qv parts = some es) :
    ∀ e ∈ es, orElemOK e = true := by
  induction parts generalizing es with
  | nil =>
    simp only [parse_or_parts, Option.some.injEq] at h
    subst h
    intro e he
    exact absurd he (List.not_mem_nil e)
  | cons part rest ih =>
    simp only [parse_or_parts] at h
    cases hae : parse_and_expression aliasRows tagRows qv part with
    | none => rw [hae] at h; simp at h
    | some sub =>
      rw [hae] at h
      cases hrs : parse_or_parts aliasRows tagRows qv rest with
      | none => rw [hrs] at h; simp at h
      | some es' =>
        rw [hrs] at h
        simp only [Option.pure_def, Option.bind_eq_bind, Option.some_bind, Option.some.injEq] at h
        subst h
        obtain ⟨hop, hterms⟩ :=
          parse_and_expression_shape aliasRows tagRows qv part sub hae
        intro e he
        rcases List.mem_cons.mp he with he0 | he'
        · subst he0
          cases hsub : sub.terms with
          | nil => simp [hsub, orElemOK, hop]
          | cons e1 ts1 =>
            cases ts1 with
            | nil =>
              simp only [hsub]
              have : isTermElem e1 = true := hterms e1 (by simp [hsub])
              cases e1 with
              | term t => rfl
              | query a b => simp [isTermElem] at this
            | cons e2 ts2 =>
              simp only [hsub, orElemOK, hop, Bool.and_eq_true, List.all_eq_true]
              refine ⟨rfl, ?_⟩
              intro x hx
              exact hterms x (by rw [hsub]; exact hx)
        · exact ih es' hrs e he'

/-- C10: every `TagQuery` returned by `parse` satisfies the depth-≤-2
structural invariant: the top operator is `AND` or `OR`; under `AND` all
elements are plain terms; under `OR` each element is a plain term or an
`AND`-query of plain terms. -/
theorem parse_shallow_invariant (aliasRows : List TagAliasRow)
    (tagRows : List TagRow) (s : String) (q : TagQuery)
    (h : parse aliasRows tagRows s = some q) : shallowOK q = true := by
  unfold parse at h
  split at h
  · simp only [Option.some.injEq] at h
    subst h
    rfl
  · dsimp only at h
    split at h
    · cases hop : parse_or_parts aliasRows tagRows (findQuoted s.data)
          (splitOR (substQuoted 0 s.data (findQuoted s.data))) with
      | none => rw [hop] at h; simp at h
      | some es =>
        rw [hop] at h
        simp only [Option.pure_def, Option.bind_eq_bind, Option.some_bind, Option.some.injEq] at h
        subst h
        have hall := parse_or_parts_shape aliasRows tagRows _ _ es hop
        simp [shallowOK, List.all_eq_true]
        exact fun x hx => hall x hx
    · obtain ⟨hop, hterms⟩ := parse_and_expression_shape aliasRows tagRows _ _ q h
      simp [shallowOK, hop, List.all_eq_true]
      exact fun x hx => hterms x hx

/-- Witness for C10 at a concrete mixed query. -/
theorem parse_shallow_invariant_witness :
    shallowOK ⟨[.term ⟨"a", none, false⟩,
                .query [.term ⟨"b", none, false⟩, .term ⟨"c", none, true⟩] "AND"],
               "OR"⟩ = true :=
  parse_shallow_invariant [] [] "a OR b -c" _ rfl

/-! ## Idempotence of `normalize_tag_name` (C6)

The output of the normalizer contains only `[a-z0-9_]` characters, has
no two consecutive underscores, and neither starts nor ends with an
underscore; each normalization stage is the identity on such strings. -/

theorem allowed_cases {c : Char} (h : isAllowed c = true) :
    (97 ≤ c.toNat ∧ c.toNat ≤ 122) ∨ (48 ≤ c.toNat ∧ c.toNat ≤ 57) ∨ c = '_' := by
  simp only [isAllowed, Bool.or_eq_true, Bool.and_eq_true, decide_eq_true_eq] at h
  rcases h with (⟨h1, h2⟩ | ⟨h1, h2⟩) | h3
  · rw [Char.le_def, UInt32.le_def, BitVec.le_def] at h1 h2
    exact Or.inl ⟨h1, h2⟩
  · rw [Char.le_def, UInt32.le_def, BitVec.le_def] at h1 h2
    exact Or.inr (Or.inl ⟨h1, h2⟩)
  · exact Or.inr (Or.inr h3)

theorem allowed_toLower {c : Char} (h : isAllowed c = true) :
    Char.toLower c = c := by
  rcases allowed_cases h with ⟨h1, h2⟩ | ⟨h1, h2⟩ | h3
  · unfold Char.toLower
    have : ¬(c.toNat ≥ 65 ∧ c.toNat ≤ 90) := by omega
    simp [this]
  · unfold Char.toLower
    have : ¬(c.toNat ≥ 65 ∧ c.toNat ≤ 90) := by omega
    simp [this]
  · subst h3; decide

theorem allowed_ne {c : Char} (h : isAllowed c = true) :
    c ≠ '/' ∧ c ≠ '-' ∧ c ≠ ' ' := by
  refine ⟨?_, ?_, ?_⟩ <;> (intro heq; subst heq; exact absurd h (by decide))

theorem mem_collapse {c : Char} : ∀ l, c ∈ collapseUnderscores l → c ∈ l
  | [] => by simp [collapseUnderscores]
  | [a] => by simp [collapseUnderscores]
  | a :: b :: rest => by
    simp only [collapseUnderscores]
    split
    · intro h
      exact List.mem_cons_of_mem a (mem_collapse (b :: rest) h)
    · intro h
      rcases List.mem_cons.mp h with rfl | h2
      · exact List.mem_cons_self _ _
      · exact List.mem_cons_of_mem a (mem_collapse (b :: rest) h2)

theorem collapse_head : ∀ (b : Char) (rest : List Char),
    (collapseUnderscores (b :: rest)).head? = some b
  | _, [] => rfl
  | b, c :: rest => by
    simp only [collapseUnderscores]
    split
    next hbc =>
      simp only [Bool.and_eq_true, decide_eq_true_eq] at hbc
      rw [collapse_head c rest, hbc.1, hbc.2]
    next => simp

theorem collapse_noDouble : ∀ l, NoDouble (collapseUnderscores l)
  | [] => by simp [collapseUnderscores, NoDouble]
  | [c] => by simp [collapseUnderscores, NoDouble]
  | a :: b :: rest => by
    simp only [collapseUnderscores, NoDouble]
    split
    next => exact collapse_noDouble (b :: rest)
    next hab =>
      rw [List.chain'_cons']
      refine ⟨?_, collapse_noDouble (b :: rest)⟩
      intro y hy
      rw [collapse_head b rest, Option.mem_some_iff] at hy
      subst hy
      simp only [Bool.and_eq_true, decide_eq_true_eq] at hab
      exact fun ⟨ha, hb⟩ => hab ⟨ha, hb⟩

theorem collapse_eq_self : ∀ l, NoDouble l → collapseUnderscores l = l
  | [], _ => rfl
  | [c], _ => rfl
  | a :: b :: rest, h => by
    simp only [collapseUnderscores]
    have hab : ¬(a = '_' ∧ b = '_') :=
      (List.chain'_cons.mp h).1
    have htail : NoDouble (b :: rest) := (List.chain'_cons.mp h).2
    split
    next habs =>
      simp only [Bool.and_eq_true, decide_eq_true_eq] at habs
      exact absurd habs hab
    next => rw [collapse_eq_self (b :: rest) htail]

theorem noDouble_of_chain'_flip {l : List Char}
    (h : List.Chain' (flip (fun a b => ¬(a = '_' ∧ b = '_'))) l) : NoDouble l := by
  refine h.imp ?_
  intro a b hab hp
  tauto

theorem noDouble_reverse {l : List Char} (h : NoDouble l) : NoDouble l.reverse := by
  unfold NoDouble
  rw [List.chain'_reverse]
  refine h.imp ?_
  intro a b hab hp
  tauto

theorem noDouble_strip {l : List Char} (h : NoDouble l) :
    NoDouble (stripUnderscores l) := by
  unfold stripUnderscores
  have h1 : NoDouble (l.dropWhile (· = '_')) :=
    h.suffix (List.dropWhile_suffix _)
  have h2 : NoDouble ((l.dropWhile (· = '_')).reverse.dropWhile (· = '_')) :=
    (noDouble_reverse h1).suffix (List.dropWhile_suffix _)
  exact noDouble_reverse h2

theorem mem_strip {c : Char} {l : List Char} (h : c ∈ stripUnderscores l) :
    c ∈ l := by
  unfold stripUnderscores at h
  rw [List.mem_reverse] at h
  have h2 := (List.dropWhile_suffix (· = '_')).sublist.subset h
  rw [List.mem_reverse] at h2
  exact (List.dropWhile_suffix (· = '_')).sublist.subset h2

theorem strip_eq_rdropWhile (l : List Char) :
    stripUnderscores l = (l.dropWhile (· = '_')).rdropWhile (· = '_') := rfl

theorem strip_head_ne {l : List Char} {y : Char}
    (h : (stripUnderscores l).head? = some y) : y ≠ '_' := by
  rw [strip_eq_rdropWhile] at h
  obtain ⟨t, ht⟩ := List.rdropWhile_prefix (· = '_') (l.dropWhile (· = '_'))
  cases hs : (l.dropWhile (· = '_')).rdropWhile (· = '_') with
  | nil => rw [hs] at h; exact absurd h (by simp)
  | cons a rest =>
    rw [hs] at h ht
    have ha : a = y := by
      simpa using h
    have hd : l.dropWhile (· = '_') = a :: (rest ++ t) := by
      rw [← ht]; rfl
    have hne : l.dropWhile (· = '_') ≠ [] := by rw [hd]; simp
    have hnot := List.head_dropWhile_not (· = '_') l hne
    have hhead : (l.dropWhile (· = '_')).head hne = a := by
      rw [List.head_eq_iff_head?_eq_some]
      rw [hd]
      rfl
    rw [hhead, ha] at hnot
    simpa using hnot

theorem strip_last_ne {l : List Char} {y : Char}
    (h : (stripUnderscores l).getLast? = some y) : y ≠ '_' := by
  rw [strip_eq_rdropWhile] at h
  have hne : (l.dropWhile (· = '_')).rdropWhile (· = '_') ≠ [] := by
    intro hnil
    rw [hnil] at h
    exact absurd h (by simp)
  have hnot := List.rdropWhile_last_not (· = '_') (l.dropWhile (· = '_')) hne
  have hlast : ((l.dropWhile (· = '_')).rdropWhile (· = '_')).getLast hne = y := by
    have := List.getLast?_eq_getLast _ hne
    rw [this] at h
    simpa using h
  rw [hlast] at hnot
  simpa using hnot

theorem dropWhile_underscore_eq_self {l : List Char}
    (hh : ∀ y ∈ l.head?, y ≠ '_') : l.dropWhile (· = '_') = l := by
  cases l with
  | nil => rfl
  | cons a rest =>
    have ha : a ≠ '_' := hh a rfl
    simp [List.dropWhile_cons, ha]

theorem rdropWhile_underscore_eq_self {l : List Char}
    (hl : ∀ y ∈ l.getLast?, y ≠ '_') : l.rdropWhile (· = '_') = l := by
  rw [List.rdropWhile_eq_self_iff]
  intro hne
  have hy : l.getLast hne ≠ '_' :=
    hl (l.getLast hne) (by rw [List.getLast?_eq_getLast _ hne]; rfl)
  simp [hy]

theorem strip_eq_self {l : List Char}
    (hh : ∀ y ∈ l.head?, y ≠ '_') (hl : ∀ y ∈ l.getLast?, y ≠ '_') :
    stripUnderscores l = l := by
  rw [strip_eq_rdropWhile, dropWhile_underscore_eq_self hh]
  exact rdropWhile_underscore_eq_self hl

theorem normalize_invariants (s : String) :
    (∀ c ∈ (normalize_tag_name s).data, isAllowed c = true) ∧
    NoDouble (normalize_tag_name s).data ∧
    (∀ y ∈ (normalize_tag_name s).data.head?, y ≠ '_') ∧
    (∀ y ∈ (normalize_tag_name s).data.getLast?, y ≠ '_') := by
  by_cases hs : s = ""
  · subst hs
    refine ⟨?_, ?_, ?_, ?_⟩ <;> simp [normalize_tag_name, NoDouble]
  · have hdata : (normalize_tag_name s).data =
        stripUnderscores (collapseUnderscores
          (((((s.data.map Char.toLower).map (fun c => if c = '/' then '_' else c)).map
            (fun c => if c = '-' then '_' else c)).map
            (fun c => if c = ' ' then '_' else c)).filter isAllowed)) := by
      simp only [normalize_tag_name, if_neg hs]
    refine ⟨?_, ?_, ?_, ?_⟩
    · intro c hc
      rw [hdata] at hc
      have h2 := mem_collapse _ (mem_strip hc)
      exact (List.mem_filter.mp h2).2
    · rw [hdata]
      exact noDouble_strip (collapse_noDouble _)
    · intro y hy
      rw [hdata] at hy
      exact strip_head_ne (Option.mem_def.mp hy)
    · intro y hy
      rw [hdata] at hy
      exact strip_last_ne (Option.mem_def.mp hy)

theorem normalize_eq_self_of_invariants (y : String)
    (hall : ∀ c ∈ y.data, isAllowed c = true)
    (hnd : NoDouble y.data)
    (hh : ∀ c ∈ y.data.head?, c ≠ '_')
    (hl : ∀ c ∈ y.data.getLast?, c ≠ '_') :
    normalize_tag_name y = y := by
  by_cases hy : y = ""
  · subst hy; rfl
  · simp only [normalize_tag_name, if_neg hy]
    have h1 : y.data.map Char.toLower = y.data :=
      (List.map_congr_left fun a ha => allowed_toLower (hall a ha)).trans
        (List.map_id _)
    have h2 : y.data.map (fun c => if c = '/' then '_' else c) = y.data :=
      (List.map_congr_left fun a ha => if_neg (allowed_ne (hall a ha)).1).trans
        (List.map_id _)
    have h3 : y.data.map (fun c => if c = '-' then '_' else c) = y.data :=
      (List.map_congr_left fun a ha => if_neg (allowed_ne (hall a ha)).2.1).trans
        (List.map_id _)
    have h4 : y.data.map (fun c => if c = ' ' then '_' else c) = y.data :=
      (List.map_congr_left fun a ha => if_neg (allowed_ne (hall a ha)).2.2).trans
        (List.map_id _)
    rw [h1, h2, h3, h4, List.filter_eq_self.mpr hall,
      collapse_eq_self _ hnd, strip_eq_self hh hl]

/-- C6: `normalize_tag_name` is idempotent. -/
theorem normalize_tag_name_idempotent (s : String) :
    normalize_tag_name (normalize_tag_name s) = normalize_tag_name s := by
  obtain ⟨h1, h2, h3, h4⟩ := normalize_invariants s
  exact normalize_eq_self_of_invariants _ h1 h2 h3 h4

end EbookLib
